import Mathlib

/-!
# Shallow embedding of the pmaps time-clock core

This file embeds the time-clock state machine and timecard computation of
the repository (`clockAction`, `getEmployeeTimeCard`, `exportAllHours` and
their helpers) as executable Lean definitions and proves the specified
properties about them.

Modelling conventions:
* Millisecond timestamps are `Int` (JavaScript numbers used as epoch
  milliseconds; the schema stores them as `bigint` in number mode).
* The JavaScript truthiness test `if (clockInTime)` on a nullable number is
  modelled exactly: a cursor is truthy iff it is non-null and non-zero.
* The decimal pay rate (SQL `numeric(10,2)`, parsed with `parseFloat`) and
  the pay arithmetic are modelled over `ℚ`; `Number.prototype.toFixed(2)`
  is modelled as round-half-up to cents followed by decimal rendering.
* The UTC calendar date key `new Date(t).toISOString().split('T')[0]` is
  modelled by the UTC day index `⌊t / 86400000⌋`: two timestamps produce the
  same ISO date string iff they have the same day index.
* Database rows live in in-memory lists; `Date.now()` is passed explicitly.
-/

/-- Punch types of the `clock_logs.type` enum. -/
inductive PunchType where
  | clockIn
  | clockOut
  | lunchOut
  | lunchIn
deriving DecidableEq, Repr

/-- Employee statuses of the `clock_employees.status` enum. -/
inductive ClockStatus where
  | inactive
  | working
  | onLunch
deriving DecidableEq, Repr

/-- A row of `clock_employees` (fields the clock logic reads). -/
structure ClockEmployee where
  id : String
  name : String
  payRate : ℚ
  status : ClockStatus
deriving DecidableEq, Repr

/-- A row of `clock_logs` (fields the clock logic reads). -/
structure ClockLog where
  employeeId : String
  type : PunchType
  timestamp : Int
deriving DecidableEq, Repr

/-- The persistent state the clock system reads and writes: the
`clock_employees` and `clock_logs` tables. -/
structure ClockState where
  clockEmployees : List ClockEmployee
  clockLogs : List ClockLog
deriving DecidableEq, Repr

/-- `getClockEmployee`: select the employee row with the given id
(first match). -/
def getClockEmployee (st : ClockState) (employeeId : String) :
    Option ClockEmployee :=
  st.clockEmployees.find? (fun e => e.id == employeeId)

/-- `updateClockEmployee` restricted to a status update: set the status of
every row whose id matches and return the (first) updated row, as the
drizzle `update ... returning()` call does. -/
def updateClockEmployee (st : ClockState) (employeeId : String)
    (newStatus : ClockStatus) : ClockState × Option ClockEmployee :=
  let emps := st.clockEmployees.map
    (fun e => if e.id == employeeId then { e with status := newStatus } else e)
  ({ st with clockEmployees := emps }, emps.find? (fun e => e.id == employeeId))

/-- Pick the later of two logs, preferring the first on a timestamp tie.
Folding this over a list yields the first log attaining the maximal
timestamp, which is what the stable descending sort
`.sort((a, b) => b.timestamp - a.timestamp)[0]` in `clockAction` selects. -/
def laterLog (a b : ClockLog) : ClockLog :=
  if a.timestamp < b.timestamp then b else a

/-- The employee's most recent punch: first log attaining the maximal
timestamp among the employee's logs (`lastLog` in `clockAction`). -/
def lastLogFor (st : ClockState) (employeeId : String) : Option ClockLog :=
  (st.clockLogs.filter (fun l => l.employeeId == employeeId)).foldl
    (fun acc l =>
      match acc with
      | none => some l
      | some a => some (laterLog a l))
    none

/-- `clockAction employeeId` at wall-clock time `now` (`Date.now()`).
Looks up the employee, decides the transition from the status (for
`working`, disambiguated by the most recent punch), updates the status and
appends one punch log, returning the updated employee, the status message
and the new log. -/
def clockAction (st : ClockState) (employeeId : String) (now : Int) :
    Except String (ClockState × ClockEmployee × String × ClockLog) :=
  match getClockEmployee st employeeId with
  | none => .error "Employee not found"
  | some employee =>
    let decision : ClockStatus × PunchType × String :=
      match employee.status with
      | .inactive => (.working, .clockIn, "Clocked In")
      | .working =>
        match lastLogFor st employeeId with
        | some lastLog =>
          if lastLog.type == .lunchIn then
            (.inactive, .clockOut, "Clocked Out")
          else
            (.onLunch, .lunchOut, "Started Lunch")
        | none => (.onLunch, .lunchOut, "Started Lunch")
      | .onLunch => (.working, .lunchIn, "Ended Lunch")
    match updateClockEmployee st employeeId decision.1 with
    | (st1, some updatedEmployee) =>
      let log : ClockLog :=
        { employeeId := employeeId, type := decision.2.1, timestamp := now }
      .ok ({ st1 with clockLogs := st1.clockLogs ++ [log] },
           updatedEmployee, decision.2.2, log)
    | (_, none) => .error "Failed to update employee status"

/-! ## Timecard computation -/

/-- JavaScript truthiness of a nullable millisecond value: non-null and
non-zero (`if (clockInTime)` / `if (lunchOutTime)`). -/
def truthy : Option Int → Bool
  | none => false
  | some t => t != 0

/-- Replay state of the per-day loop of `getEmployeeTimeCard`:
`(workingTime, lunchTime, clockInTime, lunchOutTime)`. -/
structure ReplayState where
  workingTime : Int
  lunchTime : Int
  clockInTime : Option Int
  lunchOutTime : Option Int
deriving DecidableEq, Repr

/-- The initial replay state: zero durations, both cursors null. -/
def ReplayState.init : ReplayState :=
  { workingTime := 0, lunchTime := 0, clockInTime := none, lunchOutTime := none }

/-- One iteration of the per-day replay loop of `getEmployeeTimeCard`,
with the truthiness cursor guards of the source. -/
def dayStep (s : ReplayState) (log : ClockLog) : ReplayState :=
  match log.type with
  | .clockIn => { s with clockInTime := some log.timestamp }
  | .lunchOut =>
    if truthy s.clockInTime then
      { s with
        workingTime := s.workingTime + (log.timestamp - s.clockInTime.getD 0),
        lunchOutTime := some log.timestamp }
    else s
  | .lunchIn =>
    if truthy s.lunchOutTime then
      { s with
        lunchTime := s.lunchTime + (log.timestamp - s.lunchOutTime.getD 0),
        clockInTime := some log.timestamp }
    else s
  | .clockOut =>
    if truthy s.clockInTime then
      { s with
        workingTime := s.workingTime + (log.timestamp - s.clockInTime.getD 0) }
    else s

/-- The per-day replay of `getEmployeeTimeCard`: scan the day's logs in
order, returning the final working and lunch durations. -/
def processDayLogs (dayLogs : List ClockLog) : ReplayState :=
  dayLogs.foldl dayStep ReplayState.init

/-- Log comparison by timestamp, the sort key of
`orderBy(clockLogs.timestamp)`. -/
def logLE (a b : ClockLog) : Prop := a.timestamp ≤ b.timestamp

instance : DecidableRel logLE :=
  fun a b => inferInstanceAs (Decidable (a.timestamp ≤ b.timestamp))

instance : IsTotal ClockLog logLE := ⟨fun a b => le_total a.timestamp b.timestamp⟩

instance : IsTrans ClockLog logLE := ⟨fun _ _ _ => le_trans⟩

/-- Stable ascending sort by timestamp, modelling the
`orderBy(clockLogs.timestamp)` of the timecard query. -/
def sortAsc (logs : List ClockLog) : List ClockLog :=
  List.insertionSort logLE logs

/-- The logs `getEmployeeTimeCard` fetches: the employee's logs with
timestamp in `[startTs, endTs]` inclusive, ascending by timestamp. -/
def timecardLogs (st : ClockState) (employeeId : String)
    (startTs endTs : Int) : List ClockLog :=
  sortAsc (st.clockLogs.filter
    (fun l => l.employeeId == employeeId
      && decide (startTs ≤ l.timestamp) && decide (l.timestamp ≤ endTs)))

/-- UTC day index of a millisecond timestamp: the floor of `t / 86400000`.
Two timestamps get the same `new Date(t).toISOString().split('T')[0]` key
iff they have the same UTC day index. -/
def utcDay (t : Int) : Int := Int.fdiv t 86400000

/-- Append a log to the group of its day key, creating the group at the end
on first sight of the key — the insertion-ordered key object `dailyReport`. -/
def addToGroup (d : Int) (l : ClockLog) :
    List (Int × List ClockLog) → List (Int × List ClockLog)
  | [] => [(d, [l])]
  | (k, ls) :: rest =>
    if k == d then (k, ls ++ [l]) :: rest else (k, ls) :: addToGroup d l rest

/-- Group logs by UTC day key, preserving first-occurrence key order and
within-group log order (the `logs.forEach` grouping pass). -/
def groupByDay (logs : List ClockLog) : List (Int × List ClockLog) :=
  logs.foldl (fun gs l => addToGroup (utcDay l.timestamp) l gs) []

/-- A computed `dailyReport` entry: day key, that day's logs, and the
replayed working and lunch durations. -/
structure DailyEntry where
  date : Int
  logs : List ClockLog
  workingTime : Int
  lunchTime : Int
deriving DecidableEq, Repr

/-- Round a rational amount to integer cents, half away from zero upward:
`round (q * 100)` models the rounding of `toFixed(2)`. -/
def roundCents (q : ℚ) : Int := round (q * 100)

/-- Left-pad the cents part to two digits. -/
def pad2 (n : Nat) : String :=
  (if n < 10 then "0" else "") ++ toString n

/-- Fixed two-decimal rendering of a rational amount, modelling
`Number.prototype.toFixed(2)`. -/
def toFixed2 (q : ℚ) : String :=
  let c := roundCents q
  (if c < 0 then "-" else "")
    ++ toString (c.natAbs / 100) ++ "." ++ pad2 (c.natAbs % 100)

/-- The value `getEmployeeTimeCard` returns. -/
structure TimeCard where
  employee : ClockEmployee
  dailyReport : List DailyEntry
  totalWorkingTime : Int
  totalPay : String
deriving DecidableEq, Repr

/-- `getEmployeeTimeCard employeeId startDate endDate`: look up the
employee (failing when absent), fetch the in-range logs ascending, group
them by UTC day, replay each day into working/lunch durations, accumulate
the total working time across days, and derive the pay string from total
worked hours times the pay rate. -/
def getEmployeeTimeCard (st : ClockState) (employeeId : String)
    (startTs endTs : Int) : Except String TimeCard :=
  match getClockEmployee st employeeId with
  | none => .error "Employee not found"
  | some employee =>
    let logs := timecardLogs st employeeId startTs endTs
    let dailyReport := (groupByDay logs).map (fun g =>
      let t := processDayLogs g.2
      { date := g.1, logs := g.2,
        workingTime := t.workingTime, lunchTime := t.lunchTime : DailyEntry })
    let totalWorkingTime : Int :=
      dailyReport.foldl (fun acc e => acc + e.workingTime) 0
    let totalPay :=
      toFixed2 ((totalWorkingTime : ℚ) / (1000 * 60 * 60) * employee.payRate)
    .ok { employee := employee, dailyReport := dailyReport,
          totalWorkingTime := totalWorkingTime, totalPay := totalPay }

/-- One row of the `exportAllHours` report. -/
structure ExportEntry where
  employeeId : String
  employeeName : String
  payRate : ℚ
  totalHours : String
  totalPay : String
  dailyBreakdown : List DailyEntry
deriving DecidableEq, Repr

/-- The export row built from an employee and their timecard. -/
def mkExportEntry (employee : ClockEmployee) (timeCard : TimeCard) :
    ExportEntry :=
  { employeeId := employee.id
    employeeName := employee.name
    payRate := employee.payRate
    totalHours := toFixed2 ((timeCard.totalWorkingTime : ℚ) / (1000 * 60 * 60))
    totalPay := timeCard.totalPay
    dailyBreakdown := timeCard.dailyReport }

/-- The per-employee loop of `exportAllHours`, fail-fast on the first
timecard error. -/
def exportRows (st : ClockState) (startTs endTs : Int) :
    List ClockEmployee → Except String (List ExportEntry)
  | [] => .ok []
  | employee :: rest =>
    match getEmployeeTimeCard st employee.id startTs endTs with
    | .error e => .error e
    | .ok timeCard =>
      match exportRows st startTs endTs rest with
      | .error e => .error e
      | .ok entries => .ok (mkExportEntry employee timeCard :: entries)

/-- `exportAllHours startDate endDate`: one report row per known employee,
in the enumeration order of the employee table. -/
def exportAllHours (st : ClockState) (startTs endTs : Int) :
    Except String (List ExportEntry) :=
  exportRows st startTs endTs st.clockEmployees

/-! ## Spec-side definitions

These follow the specification's words, to be compared with the
source-derived definitions above. -/

/-- Modelled from the spec: one iteration of the per-day replay as §4.2
words it — each cursor guard is "if the cursor is set", i.e. the cursor is
non-null, with no condition on its numeric value. -/
def specDayStep (s : ReplayState) (log : ClockLog) : ReplayState :=
  match log.type with
  | .clockIn => { s with clockInTime := some log.timestamp }
  | .lunchOut =>
    match s.clockInTime with
    | some t =>
      { s with workingTime := s.workingTime + (log.timestamp - t),
               lunchOutTime := some log.timestamp }
    | none => s
  | .lunchIn =>
    match s.lunchOutTime with
    | some t =>
      { s with lunchTime := s.lunchTime + (log.timestamp - t),
               clockInTime := some log.timestamp }
    | none => s
  | .clockOut =>
    match s.clockInTime with
    | some t => { s with workingTime := s.workingTime + (log.timestamp - t) }
    | none => s

/-- Modelled from the spec: the per-day replay of §4.2 over a day's punch
list, cursors initially unset. -/
def specDayReplay (dayLogs : List ClockLog) : ReplayState :=
  dayLogs.foldl specDayStep ReplayState.init

/-- Modelled from the spec: the next status of the §4.1 transition table,
as a function of the current status and the most recent punch type. -/
def specNextStatus : ClockStatus → Option PunchType → ClockStatus
  | .inactive, _ => .working
  | .working, some .lunchIn => .inactive
  | .working, _ => .onLunch
  | .onLunch, _ => .working

/-- Modelled from the spec: the punch type of the §4.1 transition table. -/
def specPunchType : ClockStatus → Option PunchType → PunchType
  | .inactive, _ => .clockIn
  | .working, some .lunchIn => .clockOut
  | .working, _ => .lunchOut
  | .onLunch, _ => .lunchIn

/-- Modelled from the spec: the label string of the §4.1 transition table. -/
def specLabel : ClockStatus → Option PunchType → String
  | .inactive, _ => "Clocked In"
  | .working, some .lunchIn => "Clocked Out"
  | .working, _ => "Started Lunch"
  | .onLunch, _ => "Ended Lunch"

/-! ## Proof-side helpers and concrete fixtures -/

/-- The log list held by the group with key `d`, empty when absent. -/
def lookupGroup (gs : List (Int × List ClockLog)) (d : Int) : List ClockLog :=
  match gs.find? (fun g => g.1 == d) with
  | some g => g.2
  | none => []

/-- Freshness of a wall-clock instant: strictly after every stored log of
the employee. -/
def freshFor (st : ClockState) (employeeId : String) (t : Int) : Prop :=
  ∀ l ∈ st.clockLogs, l.employeeId = employeeId → l.timestamp < t

/-- 1970-01-02, 09:00–17:00 with a 12:00–13:00 lunch: the spec's example
day (timestamps in epoch milliseconds). -/
def exampleDayLogs : List ClockLog :=
  [{ employeeId := "e1", type := .clockIn, timestamp := 118800000 },
   { employeeId := "e1", type := .lunchOut, timestamp := 129600000 },
   { employeeId := "e1", type := .lunchIn, timestamp := 133200000 },
   { employeeId := "e1", type := .clockOut, timestamp := 147600000 }]

/-- A sample employee at pay rate 25.00, initially inactive. -/
def alice : ClockEmployee :=
  { id := "e1", name := "Alice", payRate := 25, status := .inactive }

/-- State holding the example day for the sample employee. -/
def stExample : ClockState :=
  { clockEmployees := [alice], clockLogs := exampleDayLogs }

/-- A single uninterrupted 8-hour shift on 1970-01-02. -/
def eightHourLogs : List ClockLog :=
  [{ employeeId := "e1", type := .clockIn, timestamp := 118800000 },
   { employeeId := "e1", type := .clockOut, timestamp := 147600000 }]

/-- State in which the sample employee worked exactly 8 hours in range. -/
def stPay : ClockState :=
  { clockEmployees := [alice], clockLogs := eightHourLogs }

/-- State with punch logs for id `"e1"` but no employee record: the
employee was deleted after punching. -/
def stGhost : ClockState :=
  { clockEmployees := [], clockLogs := exampleDayLogs }

/-- The empty state. -/
def stEmpty : ClockState := { clockEmployees := [], clockLogs := [] }

/-- A state with the sample employee inactive and no punch logs yet. -/
def stCycle : ClockState := { clockEmployees := [alice], clockLogs := [] }

/-- Fallback timecard used to totalize concrete extractions. -/
def fallbackTimeCard : TimeCard :=
  { employee := { id := "", name := "", payRate := 0, status := .inactive },
    dailyReport := [], totalWorkingTime := 0, totalPay := "" }

/-- The concrete timecard of `stExample` over the first ten days of 1970. -/
def tcExample : TimeCard :=
  match getEmployeeTimeCard stExample "e1" 0 864000000 with
  | .ok tc => tc
  | .error _ => fallbackTimeCard

/-- The concrete timecard of `stPay` over the first ten days of 1970. -/
def tcPay : TimeCard :=
  match getEmployeeTimeCard stPay "e1" 0 864000000 with
  | .ok tc => tc
  | .error _ => fallbackTimeCard

/-! ## Lemmas and verified properties -/

theorem dayStep_clockInTime (s : ReplayState) (x : ClockLog) :
    (dayStep s x).clockInTime = s.clockInTime ∨
      (dayStep s x).clockInTime = some x.timestamp := by
  cases h : x.type <;> simp [dayStep, h] <;> split_ifs <;> simp

theorem dayStep_lunchOutTime (s : ReplayState) (x : ClockLog) :
    (dayStep s x).lunchOutTime = s.lunchOutTime ∨
      (dayStep s x).lunchOutTime = some x.timestamp := by
  cases h : x.type <;> simp [dayStep, h] <;> split_ifs <;> simp

theorem dayStep_eq_spec (s : ReplayState) (x : ClockLog)
    (h1 : ∀ t, s.clockInTime = some t → t ≠ 0)
    (h2 : ∀ t, s.lunchOutTime = some t → t ≠ 0) :
    dayStep s x = specDayStep s x := by
  cases htype : x.type with
  | clockIn => simp [dayStep, specDayStep, htype]
  | lunchOut =>
    cases hci : s.clockInTime with
    | none => simp [dayStep, specDayStep, htype, hci, truthy]
    | some t => simp [dayStep, specDayStep, htype, hci, truthy, h1 t hci]
  | lunchIn =>
    cases hlo : s.lunchOutTime with
    | none => simp [dayStep, specDayStep, htype, hlo, truthy]
    | some t => simp [dayStep, specDayStep, htype, hlo, truthy, h2 t hlo]
  | clockOut =>
    cases hci : s.clockInTime with
    | none => simp [dayStep, specDayStep, htype, hci, truthy]
    | some t => simp [dayStep, specDayStep, htype, hci, truthy, h1 t hci]

theorem foldl_dayStep_eq_spec (logs : List ClockLog) :
    ∀ s : ReplayState,
      (∀ t, s.clockInTime = some t → t ≠ 0) →
      (∀ t, s.lunchOutTime = some t → t ≠ 0) →
      (∀ l ∈ logs, l.timestamp ≠ 0) →
      logs.foldl dayStep s = logs.foldl specDayStep s := by
  induction logs with
  | nil => intro s _ _ _; rfl
  | cons x rest ih =>
    intro s h1 h2 hts
    have hx : x.timestamp ≠ 0 := hts x (by simp)
    have heq : dayStep s x = specDayStep s x := dayStep_eq_spec s x h1 h2
    have h1' : ∀ t, (dayStep s x).clockInTime = some t → t ≠ 0 := by
      rcases dayStep_clockInTime s x with h | h
      · intro t ht
        exact h1 t (h ▸ ht)
      · intro t ht
        rw [h] at ht
        exact (Option.some_inj.mp ht) ▸ hx
    have h2' : ∀ t, (dayStep s x).lunchOutTime = some t → t ≠ 0 := by
      rcases dayStep_lunchOutTime s x with h | h
      · intro t ht
        exact h2 t (h ▸ ht)
      · intro t ht
        rw [h] at ht
        exact (Option.some_inj.mp ht) ▸ hx
    simp only [List.foldl_cons]
    rw [← heq]
    exact ih (dayStep s x) h1' h2'
      (fun l hl => hts l (List.mem_cons_of_mem x hl))

/-- C1 (amended): whenever every punch timestamp is nonzero, the per-day
replay of `getEmployeeTimeCard` follows §4.2's two-cursor algorithm exactly
(a cursor holding timestamp 0 is otherwise treated as unset, by JavaScript
truthiness); the spec's example day `clock-in@09:00, lunch-out@12:00,
lunch-in@13:00, clock-out@17:00` yields 7h worked and 1h lunch, and a day
with only `clock-in@09:00` yields 0h worked. -/
theorem processDayLogs_follows_spec_replay :
    (∀ dayLogs : List ClockLog, (∀ l ∈ dayLogs, l.timestamp ≠ 0) →
        processDayLogs dayLogs = specDayReplay dayLogs)
    ∧ (processDayLogs exampleDayLogs).workingTime = 7 * 3600000
    ∧ (processDayLogs exampleDayLogs).lunchTime = 1 * 3600000
    ∧ (processDayLogs [⟨"e1", .clockIn, 118800000⟩]).workingTime = 0 := by
  refine ⟨fun dayLogs h => ?_, by decide, by decide, by decide⟩
  exact foldl_dayStep_eq_spec dayLogs ReplayState.init
    (by intro t ht; simp [ReplayState.init] at ht)
    (by intro t ht; simp [ReplayState.init] at ht) h

/-- C1 witness: the replay equivalence applied to the example day. -/
theorem processDayLogs_follows_spec_replay_witness :
    (∀ l ∈ exampleDayLogs, l.timestamp ≠ 0) ∧
      processDayLogs exampleDayLogs = specDayReplay exampleDayLogs :=
  ⟨by decide, processDayLogs_follows_spec_replay.1 exampleDayLogs (by decide)⟩

/-- C1 counterexample: the spec's example day (clock-in 09:00, lunch-out
12:00, lunch-in 13:00, clock-out 17:00) yields 25200000 ms = 7h of worked
time, not the claimed 8h (= 28800000 ms). -/
theorem exampleDay_worked_7h_not_8h :
    (processDayLogs exampleDayLogs).workingTime = 25200000 ∧
      (25200000 : Int) ≠ 8 * 3600000 := by decide

/-- C7: `clockAction` on an unknown employee id fails with the
"Employee not found" error, creating no punch and no new state. -/
theorem clockAction_unknown_notFound (st : ClockState) (employeeId : String)
    (now : Int) (h : getClockEmployee st employeeId = none) :
    clockAction st employeeId now = .error "Employee not found" := by
  simp [clockAction, h]

/-- C7 witness: the unknown-employee failure at the empty state. -/
theorem clockAction_unknown_notFound_witness :
    getClockEmployee stEmpty "e1" = none ∧
      clockAction stEmpty "e1" 0 = .error "Employee not found" :=
  ⟨rfl, clockAction_unknown_notFound stEmpty "e1" 0 rfl⟩

/-- C9 (amended): timecard computation does not tolerate a missing
employee record: for an id with no employee row it fails with the
"Employee not found" error, even when punch logs for the id exist. -/
theorem getEmployeeTimeCard_missing_notFound (st : ClockState)
    (employeeId : String) (startTs endTs : Int)
    (h : getClockEmployee st employeeId = none) :
    getEmployeeTimeCard st employeeId startTs endTs =
      .error "Employee not found" := by
  simp [getEmployeeTimeCard, h]

/-- C9 witness: the missing-employee failure at a state holding punches
whose employee record was deleted. -/
theorem getEmployeeTimeCard_missing_notFound_witness :
    getClockEmployee stGhost "e1" = none ∧
      getEmployeeTimeCard stGhost "e1" 0 864000000 =
        .error "Employee not found" :=
  ⟨rfl, getEmployeeTimeCard_missing_notFound stGhost "e1" 0 864000000 rfl⟩

/-- C9 counterexample: at a state with punch logs for id `"e1"` but no
employee record, the timecard computation fails instead of succeeding with
a zero pay rate. -/
theorem getEmployeeTimeCard_ghost_fails :
    getEmployeeTimeCard stGhost "e1" 0 864000000 =
      .error "Employee not found" := rfl

theorem specNextStatus_inactive (o : Option PunchType) :
    specNextStatus .inactive o = .working := by
  cases o <;> rfl

theorem specNextStatus_onLunch (o : Option PunchType) :
    specNextStatus .onLunch o = .working := by
  cases o <;> rfl

theorem specPunchType_inactive (o : Option PunchType) :
    specPunchType .inactive o = .clockIn := by
  cases o <;> rfl

theorem specPunchType_onLunch (o : Option PunchType) :
    specPunchType .onLunch o = .lunchIn := by
  cases o <;> rfl

theorem specLabel_inactive (o : Option PunchType) :
    specLabel .inactive o = "Clocked In" := by
  cases o <;> rfl

theorem specLabel_onLunch (o : Option PunchType) :
    specLabel .onLunch o = "Ended Lunch" := by
  cases o <;> rfl

theorem find?_map_statusUpdate (l : List ClockEmployee) (employeeId : String)
    (ns : ClockStatus) (e : ClockEmployee)
    (h : l.find? (fun x => x.id == employeeId) = some e) :
    (l.map (fun x =>
        if x.id == employeeId then { x with status := ns } else x)).find?
      (fun x => x.id == employeeId) = some { e with status := ns } := by
  induction l with
  | nil => simp at h
  | cons a l ih =>
    by_cases ha : (a.id == employeeId) = true
    · simp only [List.find?_cons, ha] at h
      obtain rfl : a = e := Option.some_inj.mp h
      have hae : a.id = employeeId := by simpa using ha
      simp [List.find?_cons, hae]
    · have ha0 : (a.id == employeeId) = false := by simpa using ha
      simp only [List.find?_cons, ha0] at h
      simp only [List.map_cons, ha0, Bool.false_eq_true, if_false,
        List.find?_cons]
      exact ih h

theorem updateClockEmployee_found (st : ClockState) (employeeId : String)
    (ns : ClockStatus) (e : ClockEmployee)
    (h : getClockEmployee st employeeId = some e) :
    updateClockEmployee st employeeId ns =
      ({ st with clockEmployees := (st.clockEmployees.map
           (fun x => if x.id == employeeId then { x with status := ns } else x)) },
       some { e with status := ns }) := by
  unfold getClockEmployee at h
  have h' := find?_map_statusUpdate st.clockEmployees employeeId ns e h
  simp only [updateClockEmployee]
  rw [h']

theorem clockAction_ok (st : ClockState) (employeeId : String) (now : Int)
    (e : ClockEmployee) (h : getClockEmployee st employeeId = some e) :
    clockAction st employeeId now =
      .ok ({ clockEmployees := (st.clockEmployees.map
               (fun x => if x.id == employeeId then
                  { x with status := (specNextStatus e.status
                      ((lastLogFor st employeeId).map ClockLog.type)) }
                else x)),
             clockLogs := (st.clockLogs ++
               [⟨employeeId,
                 specPunchType e.status
                   ((lastLogFor st employeeId).map ClockLog.type), now⟩]) },
           { e with status := (specNextStatus e.status
               ((lastLogFor st employeeId).map ClockLog.type)) },
           specLabel e.status ((lastLogFor st employeeId).map ClockLog.type),
           ⟨employeeId,
            specPunchType e.status
              ((lastLogFor st employeeId).map ClockLog.type), now⟩) := by
  have hupd := fun ns => updateClockEmployee_found st employeeId ns e h
  cases hst : e.status with
  | inactive =>
    simp [clockAction, h, hst, hupd, specNextStatus_inactive,
      specPunchType_inactive, specLabel_inactive]
  | working =>
    cases hll : lastLogFor st employeeId with
    | none =>
      simp [clockAction, h, hst, hll, hupd, specNextStatus, specPunchType,
        specLabel]
    | some lastLog =>
      cases hty : lastLog.type <;>
        simp [clockAction, h, hst, hll, hty, hupd, specNextStatus,
          specPunchType, specLabel]
  | onLunch =>
    simp [clockAction, h, hst, hupd, specNextStatus_onLunch,
      specPunchType_onLunch, specLabel_onLunch]

/-- C2: for every existing employee, `clockAction` follows the §4.1
transition table keyed on the current status and the type of the most
recent punch: it returns the table's label string and a punch event of the
table's type, appends exactly that one punch to the log, and updates the
employee's status register to the table's next status, returning the
updated employee. -/
theorem clockAction_follows_transition_table (st : ClockState)
    (employeeId : String) (now : Int) (e : ClockEmployee)
    (h : getClockEmployee st employeeId = some e) :
    ∃ st' e',
      clockAction st employeeId now =
        .ok (st', e',
             specLabel e.status ((lastLogFor st employeeId).map ClockLog.type),
             ⟨employeeId,
              specPunchType e.status
                ((lastLogFor st employeeId).map ClockLog.type), now⟩) ∧
      e' = { e with status := (specNextStatus e.status
              ((lastLogFor st employeeId).map ClockLog.type)) } ∧
      st'.clockLogs = st.clockLogs ++
        [⟨employeeId,
          specPunchType e.status
            ((lastLogFor st employeeId).map ClockLog.type), now⟩] ∧
      getClockEmployee st' employeeId = some e' := by
  refine ⟨_, _, clockAction_ok st employeeId now e h, rfl, rfl, ?_⟩
  unfold getClockEmployee at h ⊢
  exact find?_map_statusUpdate st.clockEmployees employeeId _ e h

/-- C2 witness: the transition table applied to the sample employee, who
is inactive with the example day punched. -/
theorem clockAction_follows_transition_table_witness :
    ∃ st' e',
      clockAction stExample "e1" 200000000 =
        .ok (st', e',
             specLabel alice.status
               ((lastLogFor stExample "e1").map ClockLog.type),
             ⟨"e1",
              specPunchType alice.status
                ((lastLogFor stExample "e1").map ClockLog.type), 200000000⟩) ∧
      e' = { alice with status := (specNextStatus alice.status
              ((lastLogFor stExample "e1").map ClockLog.type)) } ∧
      st'.clockLogs = stExample.clockLogs ++
        [⟨"e1",
          specPunchType alice.status
            ((lastLogFor stExample "e1").map ClockLog.type), 200000000⟩] ∧
      getClockEmployee st' "e1" = some e' :=
  clockAction_follows_transition_table stExample "e1" 200000000 alice rfl

theorem foldl_laterLog_lt (xs : List ClockLog) (t : Int) :
    ∀ acc : Option ClockLog,
      (∀ a, acc = some a → a.timestamp < t) →
      (∀ x ∈ xs, x.timestamp < t) →
      ∀ a,
        xs.foldl (fun acc l =>
          match acc with
          | none => some l
          | some a => some (laterLog a l)) acc = some a →
        a.timestamp < t := by
  induction xs with
  | nil =>
    intro acc hacc _ a ha
    exact hacc a ha
  | cons x xs ih =>
    intro acc hacc hxs a ha
    simp only [List.foldl_cons] at ha
    refine ih _ ?_ (fun y hy => hxs y (List.mem_cons_of_mem x hy)) a ha
    intro b hb
    cases acc with
    | none =>
      obtain rfl : x = b := Option.some_inj.mp hb
      exact hxs x (List.mem_cons_self x _)
    | some c =>
      obtain rfl : laterLog c x = b := Option.some_inj.mp hb
      unfold laterLog
      split_ifs
      · exact hxs x (List.mem_cons_self x _)
      · exact hacc c rfl

theorem lastLogFor_append (st st' : ClockState) (employeeId : String)
    (l : ClockLog)
    (hlogs : st'.clockLogs = st.clockLogs ++ [l])
    (hid : l.employeeId = employeeId)
    (hfresh : freshFor st employeeId l.timestamp) :
    lastLogFor st' employeeId = some l := by
  unfold lastLogFor
  rw [hlogs, List.filter_append]
  have hfl : List.filter (fun x => x.employeeId == employeeId) [l] = [l] := by
    simp [hid]
  rw [hfl, List.foldl_append]
  simp only [List.foldl_cons, List.foldl_nil]
  cases hacc : (st.clockLogs.filter
      (fun x => x.employeeId == employeeId)).foldl (fun acc l =>
        match acc with
        | none => some l
        | some a => some (laterLog a l)) none with
  | none => rfl
  | some a =>
    have ha : a.timestamp < l.timestamp := by
      refine foldl_laterLog_lt _ _ none (by simp) ?_ a hacc
      intro x hx
      obtain ⟨hmem, hxid⟩ := List.mem_filter.mp hx
      exact hfresh x hmem (by simpa using hxid)
    simp only []
    rw [laterLog, if_pos ha]

theorem clockAction_step (st : ClockState) (employeeId : String) (now : Int)
    (e : ClockEmployee) (he : getClockEmployee st employeeId = some e)
    (hf : freshFor st employeeId now) :
    ∃ st' : ClockState,
      clockAction st employeeId now =
        .ok (st',
          { e with status := (specNextStatus e.status
              ((lastLogFor st employeeId).map ClockLog.type)) },
          specLabel e.status ((lastLogFor st employeeId).map ClockLog.type),
          ⟨employeeId, specPunchType e.status
            ((lastLogFor st employeeId).map ClockLog.type), now⟩) ∧
      getClockEmployee st' employeeId =
        some { e with status := (specNextStatus e.status
          ((lastLogFor st employeeId).map ClockLog.type)) } ∧
      lastLogFor st' employeeId =
        some ⟨employeeId, specPunchType e.status
          ((lastLogFor st employeeId).map ClockLog.type), now⟩ ∧
      ∀ t', now < t' → freshFor st' employeeId t' := by
  refine ⟨_, clockAction_ok st employeeId now e he, ?_, ?_, ?_⟩
  · unfold getClockEmployee at he ⊢
    exact find?_map_statusUpdate st.clockEmployees employeeId _ e he
  · exact lastLogFor_append st _ employeeId _ rfl rfl hf
  · intro t' ht' l hl hid
    rcases List.mem_append.mp hl with h | h
    · exact lt_trans (hf l h hid) ht'
    · rw [List.mem_singleton] at h
      subst h
      exact ht'

/-- C6: starting from status inactive, four successive `clockAction` calls
at fresh, strictly increasing wall-clock instants cycle the employee's
status through working, on-lunch, working, and back to inactive. -/
theorem clockAction_cycles_every_four (st : ClockState) (employeeId : String)
    (t1 t2 t3 t4 : Int) (e : ClockEmployee)
    (he : getClockEmployee st employeeId = some e)
    (hs : e.status = .inactive)
    (hf : freshFor st employeeId t1)
    (h12 : t1 < t2) (h23 : t2 < t3) (h34 : t3 < t4) :
    ∃ r1 r2 r3 r4 : ClockState × ClockEmployee × String × ClockLog,
      clockAction st employeeId t1 = .ok r1 ∧ r1.2.1.status = .working ∧
      clockAction r1.1 employeeId t2 = .ok r2 ∧ r2.2.1.status = .onLunch ∧
      clockAction r2.1 employeeId t3 = .ok r3 ∧ r3.2.1.status = .working ∧
      clockAction r3.1 employeeId t4 = .ok r4 ∧ r4.2.1.status = .inactive ∧
      getClockEmployee r4.1 employeeId = some r4.2.1 := by
  obtain ⟨s1, h1, he1, hll1, hfr1⟩ := clockAction_step st employeeId t1 e he hf
  rw [hs] at h1 he1 hll1
  simp only [specNextStatus_inactive, specPunchType_inactive,
    specLabel_inactive] at h1 he1 hll1
  obtain ⟨s2, h2, he2, hll2, hfr2⟩ :=
    clockAction_step s1 employeeId t2 _ he1 (hfr1 t2 h12)
  rw [hll1] at h2 he2 hll2
  obtain ⟨s3, h3, he3, hll3, hfr3⟩ :=
    clockAction_step s2 employeeId t3 _ he2 (hfr2 t3 h23)
  rw [hll2] at h3 he3 hll3
  obtain ⟨s4, h4, he4, hll4, hfr4⟩ :=
    clockAction_step s3 employeeId t4 _ he3 (hfr3 t4 h34)
  rw [hll3] at h4 he4 hll4
  exact ⟨_, _, _, _, h1, rfl, h2, rfl, h3, rfl, h4, rfl, he4⟩

/-- C6 witness: the four-call cycle run for the sample employee from the
empty punch log at instants 1, 2, 3, 4. -/
theorem clockAction_cycles_every_four_witness :
    getClockEmployee stCycle "e1" = some alice ∧ alice.status = .inactive ∧
      (∃ r1 r2 r3 r4 : ClockState × ClockEmployee × String × ClockLog,
        clockAction stCycle "e1" 1 = .ok r1 ∧ r1.2.1.status = .working ∧
        clockAction r1.1 "e1" 2 = .ok r2 ∧ r2.2.1.status = .onLunch ∧
        clockAction r2.1 "e1" 3 = .ok r3 ∧ r3.2.1.status = .working ∧
        clockAction r3.1 "e1" 4 = .ok r4 ∧ r4.2.1.status = .inactive ∧
        getClockEmployee r4.1 "e1" = some r4.2.1) :=
  ⟨rfl, rfl,
    clockAction_cycles_every_four stCycle "e1" 1 2 3 4 alice rfl rfl
      (fun l hl _ => absurd hl (List.not_mem_nil l))
      (by decide) (by decide) (by decide)⟩

/-- C3: the timecard's pay string is the fixed-two-decimal rendering, with
standard rounding to cents, of total worked hours times the employee's pay
rate — the lunch duration plays no part in it. -/
theorem totalPay_from_worked_hours (st : ClockState) (employeeId : String)
    (startTs endTs : Int) (tc : TimeCard)
    (h : getEmployeeTimeCard st employeeId startTs endTs = .ok tc) :
    tc.totalPay =
      toFixed2 ((tc.totalWorkingTime : ℚ) / (1000 * 60 * 60)
        * tc.employee.payRate) := by
  unfold getEmployeeTimeCard at h
  cases hemp : getClockEmployee st employeeId with
  | none =>
    rw [hemp] at h
    cases h
  | some e =>
    rw [hemp] at h
    obtain rfl := (Except.ok.inj h).symm
    rfl

/-- C3 witness: pay rate 25.00 with exactly 8h worked in range yields the
pay string "200.00". -/
theorem totalPay_from_worked_hours_witness :
    getEmployeeTimeCard stPay "e1" 0 864000000 = .ok tcPay ∧
      tcPay.totalWorkingTime = 28800000 ∧ tcPay.employee.payRate = 25 ∧
      tcPay.totalPay = "200.00" := by
  have h := totalPay_from_worked_hours stPay "e1" 0 864000000 tcPay rfl
  have hW : tcPay.totalWorkingTime = 28800000 := by decide
  have hR : tcPay.employee.payRate = 25 := rfl
  refine ⟨rfl, hW, hR, ?_⟩
  rw [h, hW, hR]
  have hval : (((28800000 : Int) : ℚ)) / (1000 * 60 * 60) * 25 = 200 := by
    norm_num
  rw [hval]
  have hc : roundCents (200 : ℚ) = 20000 := by
    unfold roundCents
    norm_num
  simp only [toFixed2, hc]
  decide

theorem foldl_add_workingTime (l : List DailyEntry) :
    ∀ acc : Int, l.foldl (fun acc en => acc + en.workingTime) acc
      = acc + (l.map DailyEntry.workingTime).sum := by
  induction l with
  | nil =>
    intro acc
    simp
  | cons x l ih =>
    intro acc
    simp [List.foldl_cons, ih, add_assoc]

/-- C4: the timecard's total worked duration equals the sum of the per-day
worked durations of its daily report entries. -/
theorem totalWorkingTime_eq_sum_daily (st : ClockState) (employeeId : String)
    (startTs endTs : Int) (tc : TimeCard)
    (h : getEmployeeTimeCard st employeeId startTs endTs = .ok tc) :
    tc.totalWorkingTime = (tc.dailyReport.map DailyEntry.workingTime).sum := by
  unfold getEmployeeTimeCard at h
  cases hemp : getClockEmployee st employeeId with
  | none =>
    rw [hemp] at h
    cases h
  | some e =>
    rw [hemp] at h
    obtain rfl := (Except.ok.inj h).symm
    simp [foldl_add_workingTime]

/-- C4 witness: the total-equals-sum identity at the example state. -/
theorem totalWorkingTime_eq_sum_daily_witness :
    getEmployeeTimeCard stExample "e1" 0 864000000 = .ok tcExample ∧
      tcExample.totalWorkingTime =
        (tcExample.dailyReport.map DailyEntry.workingTime).sum :=
  ⟨rfl, totalWorkingTime_eq_sum_daily stExample "e1" 0 864000000 tcExample rfl⟩

theorem getEmployeeTimeCard_isOk (st : ClockState) (employeeId : String)
    (startTs endTs : Int) (e : ClockEmployee)
    (h : getClockEmployee st employeeId = some e) :
    ∃ tc : TimeCard, getEmployeeTimeCard st employeeId startTs endTs = .ok tc := by
  unfold getEmployeeTimeCard
  rw [h]
  exact ⟨_, rfl⟩

theorem exportRows_spec (st : ClockState) (startTs endTs : Int) :
    ∀ emps : List ClockEmployee,
      (∀ emp ∈ emps, ∃ x, getClockEmployee st emp.id = some x) →
      ∃ entries, exportRows st startTs endTs emps = .ok entries ∧
        List.Forall₂ (fun emp entry =>
          entry.employeeId = emp.id ∧ entry.employeeName = emp.name ∧
          entry.payRate = emp.payRate ∧
          ∃ tc : TimeCard,
            getEmployeeTimeCard st emp.id startTs endTs = .ok tc ∧
            entry.totalPay = tc.totalPay ∧
            entry.totalHours =
              toFixed2 ((tc.totalWorkingTime : ℚ) / (1000 * 60 * 60)) ∧
            entry.dailyBreakdown = tc.dailyReport) emps entries := by
  intro emps
  induction emps with
  | nil =>
    intro _
    exact ⟨[], rfl, List.Forall₂.nil⟩
  | cons emp rest ih =>
    intro hmem
    obtain ⟨x, hx⟩ := hmem emp (List.mem_cons_self emp rest)
    obtain ⟨tc, htc⟩ := getEmployeeTimeCard_isOk st emp.id startTs endTs x hx
    obtain ⟨entries, hrows, hfa⟩ :=
      ih (fun y hy => hmem y (List.mem_cons_of_mem emp hy))
    refine ⟨mkExportEntry emp tc :: entries, ?_, ?_⟩
    · unfold exportRows
      rw [htc, hrows]
    · exact List.Forall₂.cons ⟨rfl, rfl, rfl, tc, htc, rfl, rfl, rfl⟩ hfa

/-- C5: for every date range, `exportAllHours` succeeds with exactly one
report entry per known employee, in enumeration order; each entry carries
that employee's id, name and pay rate, the two-decimal total-hours string,
the per-day breakdown, and a `totalPay` equal to the `totalPay` of that
employee's own timecard over the same range. -/
theorem exportAllHours_one_entry_per_employee (st : ClockState)
    (startTs endTs : Int) :
    ∃ entries, exportAllHours st startTs endTs = .ok entries ∧
      entries.length = st.clockEmployees.length ∧
      List.Forall₂ (fun emp entry =>
        entry.employeeId = emp.id ∧ entry.employeeName = emp.name ∧
        entry.payRate = emp.payRate ∧
        ∃ tc : TimeCard,
          getEmployeeTimeCard st emp.id startTs endTs = .ok tc ∧
          entry.totalPay = tc.totalPay ∧
          entry.totalHours =
            toFixed2 ((tc.totalWorkingTime : ℚ) / (1000 * 60 * 60)) ∧
          entry.dailyBreakdown = tc.dailyReport) st.clockEmployees entries := by
  have hmem : ∀ emp ∈ st.clockEmployees,
      ∃ x, getClockEmployee st emp.id = some x := by
    intro emp hm
    have h1 : (List.find? (fun x => x.id == emp.id) st.clockEmployees).isSome
        = true :=
      List.find?_isSome.mpr ⟨emp, hm, by simp⟩
    obtain ⟨x, hx⟩ := Option.isSome_iff_exists.mp h1
    exact ⟨x, hx⟩
  obtain ⟨entries, hrows, hfa⟩ :=
    exportRows_spec st startTs endTs st.clockEmployees hmem
  exact ⟨entries, hrows, hfa.length_eq.symm, hfa⟩

theorem lookupGroup_addToGroup (k d : Int) (l : ClockLog)
    (gs : List (Int × List ClockLog)) :
    lookupGroup (addToGroup k l gs) d =
      if k = d then lookupGroup gs d ++ [l] else lookupGroup gs d := by
  induction gs with
  | nil =>
    by_cases hkd : k = d <;>
      simp [addToGroup, lookupGroup, List.find?_cons, hkd]
  | cons g rest ih =>
    obtain ⟨k', ls⟩ := g
    by_cases hk' : k' = k
    · subst hk'
      by_cases hkd : k' = d <;>
        simp [addToGroup, lookupGroup, List.find?_cons, hkd]
    · by_cases hk'd : k' = d
      · subst hk'd
        have hkd : ¬ k = k' := fun hh => hk' hh.symm
        simp [addToGroup, lookupGroup, List.find?_cons, hk', hkd]
      · have h1 : addToGroup k l ((k', ls) :: rest)
            = (k', ls) :: addToGroup k l rest := by
          simp [addToGroup, hk']
        have h2 : ∀ xs : List (Int × List ClockLog),
            lookupGroup ((k', ls) :: xs) d = lookupGroup xs d := by
          intro xs
          unfold lookupGroup
          rw [List.find?_cons]
          have hb : (((k', ls) : Int × List ClockLog).1 == d) = false := by
            simpa using hk'd
          simp [hb]
        rw [h1, h2, h2, ih]

theorem lookupGroup_groupFold (logs : List ClockLog) :
    ∀ (gs : List (Int × List ClockLog)) (d : Int),
      lookupGroup
          (logs.foldl (fun gs l => addToGroup (utcDay l.timestamp) l gs) gs) d
        = lookupGroup gs d ++ logs.filter (fun l => utcDay l.timestamp == d) := by
  induction logs with
  | nil =>
    intro gs d
    simp
  | cons x rest ih =>
    intro gs d
    simp only [List.foldl_cons, List.filter_cons]
    by_cases hx : utcDay x.timestamp = d
    · rw [ih, lookupGroup_addToGroup]
      simp [hx]
    · rw [ih, lookupGroup_addToGroup]
      simp [hx]

theorem lookupGroup_groupByDay (logs : List ClockLog) (d : Int) :
    lookupGroup (groupByDay logs) d =
      logs.filter (fun l => utcDay l.timestamp == d) := by
  have h := lookupGroup_groupFold logs [] d
  simpa [groupByDay, lookupGroup] using h

theorem keys_addToGroup (k : Int) (l : ClockLog)
    (gs : List (Int × List ClockLog)) :
    (addToGroup k l gs).map Prod.fst =
      if k ∈ gs.map Prod.fst then gs.map Prod.fst
      else gs.map Prod.fst ++ [k] := by
  induction gs with
  | nil => simp [addToGroup]
  | cons g rest ih =>
    obtain ⟨k', ls⟩ := g
    by_cases hk : k' = k
    · subst hk
      simp [addToGroup]
    · by_cases hmem : k ∈ rest.map Prod.fst
      · simp [addToGroup, hk, ih, hmem, Ne.symm hk]
      · simp [addToGroup, hk, ih, hmem, Ne.symm hk]

theorem nodup_keys_groupFold (logs : List ClockLog) :
    ∀ gs : List (Int × List ClockLog),
      (gs.map Prod.fst).Nodup →
      ((logs.foldl (fun gs l => addToGroup (utcDay l.timestamp) l gs) gs).map
        Prod.fst).Nodup := by
  induction logs with
  | nil =>
    intro gs h
    simpa using h
  | cons x rest ih =>
    intro gs h
    simp only [List.foldl_cons]
    refine ih _ ?_
    rw [keys_addToGroup]
    by_cases hmem : utcDay x.timestamp ∈ gs.map Prod.fst
    · simpa [hmem] using h
    · simp only [hmem, if_false]
      refine List.Nodup.append h (List.nodup_singleton _) ?_
      intro a ha hb
      rw [List.mem_singleton] at hb
      subst hb
      exact hmem ha

theorem find?_eq_of_mem_nodupKeys :
    ∀ (gs : List (Int × List ClockLog)) (g : Int × List ClockLog),
      g ∈ gs → (gs.map Prod.fst).Nodup →
      gs.find? (fun x => x.1 == g.1) = some g := by
  intro gs
  induction gs with
  | nil =>
    intro g hg _
    cases hg
  | cons a rest ih =>
    intro g hg hnd
    have hnd' : a.1 ∉ rest.map Prod.fst ∧ (rest.map Prod.fst).Nodup := by
      rw [List.map_cons] at hnd
      exact List.nodup_cons.mp hnd
    rcases List.mem_cons.mp hg with rfl | hg'
    · simp [List.find?_cons]
    · have ha : (a.1 == g.1) = false := by
        simp only [beq_eq_false_iff_ne, ne_eq]
        intro hh
        have hgk : g.1 ∈ rest.map Prod.fst := List.mem_map_of_mem Prod.fst hg'
        rw [← hh] at hgk
        exact hnd'.1 hgk
      simp only [List.find?_cons, ha]
      exact ih g hg' hnd'.2

theorem mem_timecardLogs (st : ClockState) (employeeId : String)
    (startTs endTs : Int) (l : ClockLog) :
    l ∈ timecardLogs st employeeId startTs endTs ↔
      (l ∈ st.clockLogs ∧ l.employeeId = employeeId ∧
       startTs ≤ l.timestamp ∧ l.timestamp ≤ endTs) := by
  unfold timecardLogs sortAsc
  rw [(List.perm_insertionSort logLE _).mem_iff]
  simp [List.mem_filter, and_assoc]

theorem timecardLogs_sorted (st : ClockState) (employeeId : String)
    (startTs endTs : Int) :
    List.Pairwise logLE (timecardLogs st employeeId startTs endTs) :=
  List.sorted_insertionSort logLE _

theorem dailyReport_spec (L : List ClockLog)
    (hsorted : List.Pairwise logLE L) :
    (∀ l : ClockLog, (∃ g ∈ groupByDay L, l ∈ g.2) ↔ l ∈ L) ∧
    (∀ g ∈ groupByDay L, ∀ l ∈ g.2, utcDay l.timestamp = g.1) ∧
    (∀ g ∈ groupByDay L, g.2.Pairwise logLE) ∧
    ((groupByDay L).map Prod.fst).Nodup := by
  have hnd : ((groupByDay L).map Prod.fst).Nodup := by
    have h := nodup_keys_groupFold L [] (by simp)
    simpa [groupByDay] using h
  have hgrp : ∀ g ∈ groupByDay L,
      g.2 = L.filter (fun l => utcDay l.timestamp == g.1) := by
    intro g hg
    have hfind := find?_eq_of_mem_nodupKeys (groupByDay L) g hg hnd
    have : lookupGroup (groupByDay L) g.1 = g.2 := by
      unfold lookupGroup
      rw [hfind]
    rw [← this, lookupGroup_groupByDay]
  refine ⟨?_, ?_, ?_, hnd⟩
  · intro l
    constructor
    · rintro ⟨g, hg, hl⟩
      rw [hgrp g hg] at hl
      exact (List.mem_filter.mp hl).1
    · intro hl
      have hmem : l ∈ lookupGroup (groupByDay L) (utcDay l.timestamp) := by
        rw [lookupGroup_groupByDay]
        exact List.mem_filter.mpr ⟨hl, by simp⟩
      unfold lookupGroup at hmem
      cases hfind : (groupByDay L).find? (fun x => x.1 == utcDay l.timestamp) with
      | none =>
        rw [hfind] at hmem
        cases hmem
      | some g =>
        rw [hfind] at hmem
        exact ⟨g, List.mem_of_find?_eq_some hfind, hmem⟩
  · intro g hg l hl
    rw [hgrp g hg] at hl
    have := (List.mem_filter.mp hl).2
    simpa using this
  · intro g hg
    rw [hgrp g hg]
    exact List.Pairwise.sublist (List.filter_sublist L) hsorted

/-- C8: the timecard's daily report holds exactly the employee's punches
with timestamp in `[startTs, endTs]` inclusive; each entry's punches all
fall on the entry's UTC calendar day, are processed in ascending timestamp
order, and the report has one entry per day key. -/
theorem timecard_range_and_grouping (st : ClockState) (employeeId : String)
    (startTs endTs : Int) (tc : TimeCard)
    (h : getEmployeeTimeCard st employeeId startTs endTs = .ok tc) :
    (∀ l : ClockLog,
        (∃ entry ∈ tc.dailyReport, l ∈ entry.logs) ↔
          (l ∈ st.clockLogs ∧ l.employeeId = employeeId ∧
           startTs ≤ l.timestamp ∧ l.timestamp ≤ endTs)) ∧
    (∀ entry ∈ tc.dailyReport, ∀ l ∈ entry.logs,
        utcDay l.timestamp = entry.date) ∧
    (∀ entry ∈ tc.dailyReport, entry.logs.Pairwise logLE) ∧
    (tc.dailyReport.map DailyEntry.date).Nodup := by
  unfold getEmployeeTimeCard at h
  cases hemp : getClockEmployee st employeeId with
  | none =>
    rw [hemp] at h
    cases h
  | some e =>
    rw [hemp] at h
    obtain rfl := (Except.ok.inj h).symm
    obtain ⟨hmem, hday, hsort, hnd⟩ :=
      dailyReport_spec (timecardLogs st employeeId startTs endTs)
        (timecardLogs_sorted st employeeId startTs endTs)
    refine ⟨?_, ?_, ?_, ?_⟩
    · intro l
      rw [← mem_timecardLogs st employeeId startTs endTs l, ← hmem l]
      constructor
      · rintro ⟨entry, hentry, hl⟩
        obtain ⟨g, hg, rfl⟩ := List.mem_map.mp hentry
        exact ⟨g, hg, hl⟩
      · rintro ⟨g, hg, hl⟩
        exact ⟨_, List.mem_map_of_mem _ hg, hl⟩
    · rintro entry hentry l hl
      obtain ⟨g, hg, rfl⟩ := List.mem_map.mp hentry
      exact hday g hg l hl
    · rintro entry hentry
      obtain ⟨g, hg, rfl⟩ := List.mem_map.mp hentry
      exact hsort g hg
    · rw [List.map_map]
      exact hnd

/-- C8 witness: the grouping theorem applied to the example state: the
09:00 clock-in lies in a daily entry, and day keys are unique. -/
theorem timecard_range_and_grouping_witness :
    (∃ entry ∈ tcExample.dailyReport,
        (⟨"e1", PunchType.clockIn, 118800000⟩ : ClockLog) ∈ entry.logs) ∧
      (tcExample.dailyReport.map DailyEntry.date).Nodup :=
  ⟨((timecard_range_and_grouping stExample "e1" 0 864000000 tcExample
        rfl).1 ⟨"e1", .clockIn, 118800000⟩).mpr (by decide),
   (timecard_range_and_grouping stExample "e1" 0 864000000 tcExample
        rfl).2.2.2⟩

theorem dayStep_nonneg (s : ReplayState) (x : ClockLog)
    (hci : ∀ u, s.clockInTime = some u → u ≤ x.timestamp)
    (hlo : ∀ u, s.lunchOutTime = some u → u ≤ x.timestamp)
    (hw : 0 ≤ s.workingTime) (hl : 0 ≤ s.lunchTime) :
    0 ≤ (dayStep s x).workingTime ∧ 0 ≤ (dayStep s x).lunchTime := by
  cases h : x.type with
  | clockIn => exact ⟨by simpa [dayStep, h] using hw, by simpa [dayStep, h] using hl⟩
  | lunchOut =>
    cases hc : s.clockInTime with
    | none =>
      exact ⟨by simpa [dayStep, h, hc, truthy] using hw,
        by simpa [dayStep, h, hc, truthy] using hl⟩
    | some u =>
      by_cases hu : u = 0
      · exact ⟨by simpa [dayStep, h, hc, truthy, hu] using hw,
          by simpa [dayStep, h, hc, truthy, hu] using hl⟩
      · have hle := hci u hc
        refine ⟨?_, ?_⟩ <;> simp [dayStep, h, hc, truthy, hu]
        · omega
        · exact hl
  | lunchIn =>
    cases hc : s.lunchOutTime with
    | none =>
      exact ⟨by simpa [dayStep, h, hc, truthy] using hw,
        by simpa [dayStep, h, hc, truthy] using hl⟩
    | some u =>
      by_cases hu : u = 0
      · exact ⟨by simpa [dayStep, h, hc, truthy, hu] using hw,
          by simpa [dayStep, h, hc, truthy, hu] using hl⟩
      · have hle := hlo u hc
        refine ⟨?_, ?_⟩ <;> simp [dayStep, h, hc, truthy, hu]
        · exact hw
        · omega
  | clockOut =>
    cases hc : s.clockInTime with
    | none =>
      exact ⟨by simpa [dayStep, h, hc, truthy] using hw,
        by simpa [dayStep, h, hc, truthy] using hl⟩
    | some u =>
      by_cases hu : u = 0
      · exact ⟨by simpa [dayStep, h, hc, truthy, hu] using hw,
          by simpa [dayStep, h, hc, truthy, hu] using hl⟩
      · have hle := hci u hc
        refine ⟨?_, ?_⟩ <;> simp [dayStep, h, hc, truthy, hu]
        · omega
        · exact hl

theorem foldl_dayStep_nonneg (logs : List ClockLog) :
    ∀ s : ReplayState,
      List.Pairwise logLE logs →
      (∀ u, s.clockInTime = some u → ∀ l ∈ logs, u ≤ l.timestamp) →
      (∀ u, s.lunchOutTime = some u → ∀ l ∈ logs, u ≤ l.timestamp) →
      0 ≤ s.workingTime → 0 ≤ s.lunchTime →
      0 ≤ (logs.foldl dayStep s).workingTime ∧
        0 ≤ (logs.foldl dayStep s).lunchTime := by
  induction logs with
  | nil =>
    intro s _ _ _ hw hl
    exact ⟨hw, hl⟩
  | cons x rest ih =>
    intro s hpw hci hlo hw hl
    obtain ⟨hxrest, hrest⟩ := List.pairwise_cons.mp hpw
    have hcix : ∀ u, s.clockInTime = some u → u ≤ x.timestamp :=
      fun u hu => hci u hu x (List.mem_cons_self x rest)
    have hlox : ∀ u, s.lunchOutTime = some u → u ≤ x.timestamp :=
      fun u hu => hlo u hu x (List.mem_cons_self x rest)
    obtain ⟨hw', hl'⟩ := dayStep_nonneg s x hcix hlox hw hl
    simp only [List.foldl_cons]
    refine ih (dayStep s x) hrest ?_ ?_ hw' hl'
    · intro u hu l hlmem
      rcases dayStep_clockInTime s x with hsame | hnew
      · exact hci u (hsame ▸ hu) l (List.mem_cons_of_mem x hlmem)
      · rw [hnew] at hu
        obtain rfl := Option.some_inj.mp hu
        exact hxrest l hlmem
    · intro u hu l hlmem
      rcases dayStep_lunchOutTime s x with hsame | hnew
      · exact hlo u (hsame ▸ hu) l (List.mem_cons_of_mem x hlmem)
      · rw [hnew] at hu
        obtain rfl := Option.some_inj.mp hu
        exact hxrest l hlmem

theorem processDayLogs_nonneg (logs : List ClockLog)
    (h : List.Pairwise logLE logs) :
    0 ≤ (processDayLogs logs).workingTime ∧
      0 ≤ (processDayLogs logs).lunchTime := by
  refine foldl_dayStep_nonneg logs ReplayState.init h ?_ ?_ le_rfl le_rfl
  · intro u hu
    simp [ReplayState.init] at hu
  · intro u hu
    simp [ReplayState.init] at hu

theorem foldl_add_workingTime_nonneg (l : List DailyEntry)
    (h : ∀ en ∈ l, 0 ≤ en.workingTime) :
    0 ≤ l.foldl (fun acc en => acc + en.workingTime) 0 := by
  rw [foldl_add_workingTime]
  simp only [zero_add]
  refine List.sum_nonneg ?_
  intro x hx
  obtain ⟨en, hen, rfl⟩ := List.mem_map.mp hx
  exact h en hen

theorem roundCents_nonneg (q : ℚ) (h : 0 ≤ q) : 0 ≤ roundCents q := by
  unfold roundCents
  rw [round_eq]
  refine Int.floor_nonneg.mpr ?_
  linarith

/-- C10: on a day list with ascending timestamps the replay yields
non-negative worked and lunch durations; consequently every timecard's
per-day durations and total worked duration are non-negative, and with a
non-negative pay rate the rounded pay cents are non-negative as well. -/
theorem timecard_durations_nonneg :
    (∀ logs : List ClockLog, List.Pairwise logLE logs →
        0 ≤ (processDayLogs logs).workingTime ∧
          0 ≤ (processDayLogs logs).lunchTime) ∧
    (∀ (st : ClockState) (employeeId : String) (startTs endTs : Int)
        (tc : TimeCard),
        getEmployeeTimeCard st employeeId startTs endTs = .ok tc →
        (∀ entry ∈ tc.dailyReport,
            0 ≤ entry.workingTime ∧ 0 ≤ entry.lunchTime) ∧
        0 ≤ tc.totalWorkingTime ∧
        (0 ≤ tc.employee.payRate →
          0 ≤ roundCents ((tc.totalWorkingTime : ℚ) / (1000 * 60 * 60)
            * tc.employee.payRate))) := by
  constructor
  · exact fun logs h => processDayLogs_nonneg logs h
  · intro st employeeId startTs endTs tc h
    unfold getEmployeeTimeCard at h
    cases hemp : getClockEmployee st employeeId with
    | none =>
      rw [hemp] at h
      cases h
    | some e =>
      rw [hemp] at h
      obtain rfl := (Except.ok.inj h).symm
      obtain ⟨hmem, hday, hsort, hnd⟩ :=
        dailyReport_spec (timecardLogs st employeeId startTs endTs)
          (timecardLogs_sorted st employeeId startTs endTs)
      refine ⟨?_, ?_, ?_⟩
      · rintro entry hentry
        obtain ⟨g, hg, rfl⟩ := List.mem_map.mp hentry
        exact processDayLogs_nonneg g.2 (hsort g hg)
      · refine foldl_add_workingTime_nonneg _ ?_
        rintro en hen
        obtain ⟨g, hg, rfl⟩ := List.mem_map.mp hen
        exact (processDayLogs_nonneg g.2 (hsort g hg)).1
      · intro hrate
        refine roundCents_nonneg _ ?_
        refine mul_nonneg (div_nonneg ?_ (by norm_num)) hrate
        have htot : (0 : Int) ≤
            (((groupByDay (timecardLogs st employeeId startTs endTs)).map
              (fun g =>
                { date := g.1, logs := g.2,
                  workingTime := (processDayLogs g.2).workingTime,
                  lunchTime := (processDayLogs g.2).lunchTime
                  : DailyEntry })).foldl
              (fun acc en => acc + en.workingTime) 0) := by
          refine foldl_add_workingTime_nonneg _ ?_
          rintro en hen
          obtain ⟨g, hg, rfl⟩ := List.mem_map.mp hen
          exact (processDayLogs_nonneg g.2 (hsort g hg)).1
        exact_mod_cast htot

/-- C10 witness: non-negativity at the sorted example day and the example
state's timecard, whose pay rate 25.00 is non-negative. -/
theorem timecard_durations_nonneg_witness :
    (List.Pairwise logLE exampleDayLogs ∧
      0 ≤ (processDayLogs exampleDayLogs).workingTime ∧
      0 ≤ (processDayLogs exampleDayLogs).lunchTime) ∧
    (getEmployeeTimeCard stExample "e1" 0 864000000 = .ok tcExample ∧
      0 ≤ tcExample.totalWorkingTime ∧
      0 ≤ tcExample.employee.payRate ∧
      0 ≤ roundCents ((tcExample.totalWorkingTime : ℚ) / (1000 * 60 * 60)
        * tcExample.employee.payRate)) := by
  have hpw : List.Pairwise logLE exampleDayLogs := by
    unfold exampleDayLogs logLE
    decide
  have h1 := timecard_durations_nonneg.1 exampleDayLogs hpw
  have h2 := timecard_durations_nonneg.2 stExample "e1" 0 864000000 tcExample
    rfl
  have hrate : (0 : ℚ) ≤ tcExample.employee.payRate := by
    have hr : tcExample.employee.payRate = 25 := rfl
    rw [hr]
    norm_num
  exact ⟨⟨hpw, h1⟩, ⟨rfl, h2.2.1, hrate, h2.2.2 hrate⟩⟩
